import Mathlib

/-!
# dataurl command line tool: model of `cmd/dataurl/main.go`

A shallow embedding of the command line program of the repository
(`main`, `decode`, `encode`) together with a model of the data-URI codec
package it imports.  The codec package lies outside `cmd/dataurl`, so its
model follows the written specification; everything else follows the Go
source line by line.

Go strings and byte slices are both sequences of bytes; they are modelled as
lists of `Fin 256`.
-/

namespace DataURL

/-! ## Bytes and Go strings -/

/-- One machine byte. -/
abbrev Byte := Fin 256

/-- A byte slice (`[]byte`). -/
abbrev Bytes := List Byte

/-- A Go `string`: an immutable byte sequence. -/
abbrev GoString := List Byte

/-- Truncation of a natural number to a byte, `n % 2^8`. -/
def byte (n : Nat) : Byte := ⟨n % 256, Nat.mod_lt _ (by decide)⟩

/-- The bytes of an ASCII string constant of the source. -/
def str (s : String) : GoString := s.toList.map (fun c => byte c.toNat)

/-! ## Errors, panics and outcomes of calls -/

/-- The stages of decoding at which the codec reports a format error. -/
inductive FormatErrorKind
  | missingDataScheme
  | missingSeparator
  | unknownEncoding
  | invalidBase64
  | invalidPercentEscape
  deriving DecidableEq, Repr

/-- Values of Go's `error` interface that occur in the program. -/
inductive GoError
  /-- An error of the operating system or of an `io` call. -/
  | system (msg : String)
  /-- The codec's format error. -/
  | format (kind : FormatErrorKind)
  /-- A `runtime.Error` raised by a nil dereference. -/
  | nilDereference
  /-- A `runtime.TypeAssertionError`: the failed unchecked assertion `e.(error)`. -/
  | typeAssertion
  /-- The value of `fmt.Errorf("%v", e)`, `msg` being the rendering of `e`. -/
  | errorf (msg : String)
  deriving DecidableEq, Repr

/-- A value handed to `panic`: either an `error` or a value of some other
type (given by its `%v` rendering). -/
inductive PanicValue
  | err (e : GoError)
  | other (rendering : String)
  deriving DecidableEq, Repr

/-- How a Go call ends: it returns a value, or it panics. -/
inductive Outcome (α : Type)
  | ret (a : α)
  | panic (v : PanicValue)
  deriving DecidableEq, Repr

deriving instance DecidableEq for Except

/-- A returned `error` value; `none` is `nil`. -/
abbrev ErrorValue := Option GoError

/-! ## Readers and writers -/

/-- Where a reader takes its bytes from. -/
inductive Source
  | stdin
  | file (name : GoString)
  deriving DecidableEq, Repr

/-- A non-nil `io.Reader`.  Both the program and the codec consume a reader
by reading it to the end once, so a reader is given by where it reads from
and by what reading it to the end produces: the bytes read and the error that
stopped the reading (`none` at a clean end of file), or a panic. -/
structure Reader where
  src : Source
  content : Outcome (Bytes × ErrorValue)
  deriving DecidableEq, Repr

/-- An `io.Writer`: the result of one `Write` call on the given bytes. -/
structure Writer where
  write : Bytes → Outcome ErrorValue

/-- The call `io.ReadAll(in)`; `in` may be the nil interface value, and calling
`Read` on it is a nil dereference. -/
def ioReadAll : Option Reader → Outcome (Bytes × ErrorValue)
  | none => .panic (.err .nilDereference)
  | some r => r.content

/-! ## The data-URI codec

The codec package (`datauri.New`, `datauri.Decode`, `(*DataURI).WriteTo` and
the encoding constants) is imported by the program but lies outside
`cmd/dataurl`.  The definitions of this section follow the written
specification of the codec. -/

/-- Modelled from the spec: the two encoding variants of the codec package
(the constants `EncodingBase64` and `EncodingASCII`, whose declarations are
missing). -/
inductive Encoding
  | EncodingBase64
  | EncodingASCII
  deriving DecidableEq, Repr

/-- Modelled from the spec: the `DataURI` record of the missing codec package,
with the four attributes of the data model: mediatype, ordered key=value
parameters, encoding variant and raw payload. -/
structure DataURI where
  mediatype : GoString
  parameters : List (GoString × GoString)
  encoding : Encoding
  data : Bytes
  deriving DecidableEq, Repr

/-- Modelled from the spec: the standard base64 alphabet of the missing codec,
`A-Z a-z 0-9 + /`, as a map from a 6-bit value to its character. -/
def b64char (n : Nat) : Byte :=
  if n < 26 then byte (65 + n)
  else if n < 52 then byte (97 + (n - 26))
  else if n < 62 then byte (48 + (n - 52))
  else if n = 62 then 43
  else 47

/-- Modelled from the spec: the inverse of the base64 alphabet of the missing
codec; `none` on a byte outside the alphabet. -/
def b64val (c : Byte) : Option Nat :=
  if 65 ≤ c.val ∧ c.val ≤ 90 then some (c.val - 65)
  else if 97 ≤ c.val ∧ c.val ≤ 122 then some (c.val - 97 + 26)
  else if 48 ≤ c.val ∧ c.val ≤ 57 then some (c.val - 48 + 52)
  else if c.val = 43 then some 62
  else if c.val = 47 then some 63
  else none

/-- Modelled from the spec: the padding character `=` of the missing codec's
padded base64. -/
def b64pad : Byte := 61

/-- Modelled from the spec: the Base64 serialization of the missing codec,
standard alphabet, padded. -/
def b64encode : Bytes → Bytes
  | [] => []
  | [a] => [b64char (a.val / 4), b64char (a.val % 4 * 16), b64pad, b64pad]
  | [a, b] =>
    [b64char (a.val / 4), b64char (a.val % 4 * 16 + b.val / 16),
      b64char (b.val % 16 * 4), b64pad]
  | a :: b :: c :: rest =>
    b64char (a.val / 4) :: b64char (a.val % 4 * 16 + b.val / 16) ::
      b64char (b.val % 16 * 4 + c.val / 64) :: b64char (c.val % 64) :: b64encode rest

/-- Modelled from the spec: decoding of the last group of four base64
characters of the missing codec, which alone may end in one or two padding
characters. -/
def b64decodeLast (a b c d : Byte) : Option Bytes :=
  if c = b64pad ∧ d = b64pad then
    match b64val a, b64val b with
    | some x, some y => some [byte (x * 4 + y / 16)]
    | _, _ => none
  else if d = b64pad then
    match b64val a, b64val b, b64val c with
    | some x, some y, some z => some [byte (x * 4 + y / 16), byte (y % 16 * 16 + z / 4)]
    | _, _, _ => none
  else
    match b64val a, b64val b, b64val c, b64val d with
    | some x, some y, some z, some w =>
      some [byte (x * 4 + y / 16), byte (y % 16 * 16 + z / 4), byte (z % 4 * 64 + w)]
    | _, _, _, _ => none

/-- Modelled from the spec: standard base64 decoding of the missing codec;
`none` on an invalid character or invalid padding. -/
def b64decode : Bytes → Option Bytes
  | [] => some []
  | a :: b :: c :: d :: rest =>
    if rest = [] then b64decodeLast a b c d
    else
      match b64val a, b64val b, b64val c, b64val d, b64decode rest with
      | some x, some y, some z, some w, some tl =>
        some (byte (x * 4 + y / 16) :: byte (y % 16 * 16 + z / 4) :: byte (z % 4 * 64 + w) :: tl)
      | _, _, _, _, _ => none
  | _ => none

/-- Modelled from the spec: the safe set of the ASCII serialization of the
missing codec, the unreserved URI characters `A-Z a-z 0-9 - . _ ~`. -/
def isUnreserved (c : Byte) : Bool :=
  (65 ≤ c.val && c.val ≤ 90) || (97 ≤ c.val && c.val ≤ 122) || (48 ≤ c.val && c.val ≤ 57)
    || c.val == 45 || c.val == 46 || c.val == 95 || c.val == 126

/-- Modelled from the spec: an uppercase hexadecimal digit of a `%XX` escape
written by the missing codec. -/
def hexDigit (n : Nat) : Byte :=
  if n < 10 then byte (48 + n) else byte (55 + n)

/-- Modelled from the spec: the value of a hexadecimal digit, of either case,
in a `%XX` escape read by the missing codec. -/
def hexVal (c : Byte) : Option Nat :=
  if 48 ≤ c.val ∧ c.val ≤ 57 then some (c.val - 48)
  else if 65 ≤ c.val ∧ c.val ≤ 70 then some (c.val - 55)
  else if 97 ≤ c.val ∧ c.val ≤ 102 then some (c.val - 87)
  else none

/-- Modelled from the spec: the ASCII serialization of the missing codec: a
safe byte is emitted literally, any other byte as `%XX` with uppercase
hexadecimal digits. -/
def escape : Bytes → Bytes
  | [] => []
  | c :: cs =>
    if isUnreserved c then c :: escape cs
    else 37 :: hexDigit (c.val / 16) :: hexDigit (c.val % 16) :: escape cs

/-- Modelled from the spec: percent-unescaping of the missing codec; `none`
on a malformed `%XX` escape. -/
def unescape : Bytes → Option Bytes
  | [] => some []
  | c :: cs =>
    if c = 37 then
      match cs with
      | h :: l :: rest =>
        match hexVal h, hexVal l, unescape rest with
        | some x, some y, some tl => some (byte (x * 16 + y) :: tl)
        | _, _, _ => none
      | _ => none
    else
      match unescape cs with
      | some tl => some (c :: tl)
      | none => none

/-- Modelled from the spec: the mediatype written by the missing codec, which
substitutes `text/plain` for an empty mediatype on encode. -/
def mediatypeOrDefault (m : GoString) : GoString :=
  if m = [] then str "text/plain" else m

/-- Modelled from the spec: the parameters as written by the missing codec,
`;key=value` for each parameter in order. -/
def encodeParams : List (GoString × GoString) → Bytes
  | [] => []
  | kv :: ps => 59 :: kv.1 ++ 61 :: kv.2 ++ encodeParams ps

/-- Modelled from the spec: the text produced by the missing codec for a
`DataURI`: `data:` + mediatype + `;`parameter for each parameter +
`;base64` for the Base64 variant + `,` + the serialized payload. -/
def Encode (du : DataURI) : Bytes :=
  str "data:" ++ mediatypeOrDefault du.mediatype ++ encodeParams du.parameters ++
    match du.encoding with
    | .EncodingBase64 => str ";base64" ++ 44 :: b64encode du.data
    | .EncodingASCII => 44 :: escape du.data

/-- Modelled from the spec: the missing codec's test for the mandatory leading
`data:`: the remainder of `t` after the leading string `p`, if `t` starts
with it. -/
def dropLeading : GoString → Bytes → Option Bytes
  | [], t => some t
  | _ :: _, [] => none
  | p :: ps, c :: cs => if p = c then dropLeading ps cs else none

/-- Modelled from the spec: the split of the missing codec's input at the
terminating `,`: what stands before the first `,` and the payload after it;
`none` when there is no `,`. -/
def splitHeader : Bytes → Option (Bytes × Bytes)
  | [] => none
  | c :: cs =>
    if c = 44 then some ([], cs)
    else
      match splitHeader cs with
      | some hp => some (c :: hp.1, hp.2)
      | none => none

/-- Modelled from the spec: the tokens of the missing codec's header: the
media-type token up to the first `;`, and the `;`-introduced tokens after
it. -/
def splitTokens : Bytes → Bytes × List Bytes
  | [] => ([], [])
  | c :: cs =>
    if c = 59 then ([], (splitTokens cs).1 :: (splitTokens cs).2)
    else (c :: (splitTokens cs).1, (splitTokens cs).2)

/-- Modelled from the spec: the split of a key=value parameter token of the
missing codec at its first `=`. -/
def splitKeyValue : Bytes → Option (GoString × GoString)
  | [] => none
  | c :: cs =>
    if c = 61 then some ([], cs)
    else
      match splitKeyValue cs with
      | some kv => some (c :: kv.1, kv.2)
      | none => none

/-- Modelled from the spec: the missing codec's pass over the tokens after the
mediatype: key=value parameters are collected until the literal `base64`
token, which sets the Base64 variant and must be followed by the separator;
without it the variant is ASCII.  A token that is neither is an unknown
encoding token. -/
def parseTokens : List Bytes → Except FormatErrorKind (List (GoString × GoString) × Encoding)
  | [] => .ok ([], .EncodingASCII)
  | t :: ts =>
    if t = str "base64" then
      if ts = [] then .ok ([], .EncodingBase64) else .error .missingSeparator
    else
      match splitKeyValue t with
      | none => .error .unknownEncoding
      | some kv =>
        match parseTokens ts with
        | .ok r => .ok (kv :: r.1, r.2)
        | .error k => .error k

/-- Modelled from the spec: the payload decoding of the missing codec, by
variant. -/
def decodePayload (enc : Encoding) (payload : Bytes) : Except FormatErrorKind Bytes :=
  match enc with
  | .EncodingBase64 =>
    match b64decode payload with
    | some d => .ok d
    | none => .error .invalidBase64
  | .EncodingASCII =>
    match unescape payload with
    | some d => .ok d
    | none => .error .invalidPercentEscape

/-- Modelled from the spec: the parse of the missing codec on a fully buffered
input: mandatory `data:` scheme, media-type token, parameter and `base64`
tokens, the `,` separator, and the payload up to the end of input. -/
def Decode (text : Bytes) : Except GoError DataURI :=
  match dropLeading (str "data:") text with
  | none => .error (.format .missingDataScheme)
  | some rest =>
    match splitHeader rest with
    | none => .error (.format .missingSeparator)
    | some hp =>
      match parseTokens (splitTokens hp.1).2 with
      | .error k => .error (.format k)
      | .ok r =>
        match decodePayload r.2 hp.2 with
        | .error k => .error (.format k)
        | .ok d => .ok ⟨(splitTokens hp.1).1, r.1, r.2, d⟩

/-- The operations of the codec package that the program calls.  `Decode`
receives the (possibly nil) reader and returns a `DataURI` or an error, or
panics; `New` builds a `DataURI` from data and a mediatype, or panics;
`WriteTo` serializes to a writer: the `Write` calls it makes on the writer,
in order, and how the call ends. -/
structure Codec where
  Decode : Option Reader → Outcome (Except GoError DataURI)
  New : Bytes → GoString → Outcome DataURI
  WriteTo : DataURI → Writer → List Bytes × Outcome ErrorValue

/-- Modelled from the spec: the missing codec package as a whole.  `Decode`
buffers the full input before parsing it, `New` takes any data and any
mediatype, and `WriteTo` writes the serialized text to the sink and returns
the write error. -/
def specCodec : Codec where
  Decode := fun r =>
    match ioReadAll r with
    | .panic v => .panic v
    | .ret (_, some e) => .ret (.error e)
    | .ret (b, none) => .ret (Decode b)
  New := fun b m => .ret ⟨m, [], .EncodingBase64, b⟩
  WriteTo := fun du w => ([Encode du], w.write (Encode du))

/-! ## The program: `cmd/dataurl/main.go` -/

/-- What a run of the program does that can be observed from outside, in
order. -/
inductive Event
  /-- The call `os.Open(name)`. -/
  | openFile (name : GoString)
  /-- The call `decode(in, out)`. -/
  | callDecode (input : Option Reader)
  /-- The call `encode(in, out, encoding, mimetype)`. -/
  | callEncode (input : Option Reader) (encoding : Encoding) (mediatype : GoString)
  /-- The call `du.WriteTo(out)`. -/
  | serialize (du : DataURI)
  /-- One `Write` call on standard output. -/
  | write (b : Bytes)
  /-- The deferred `f.Close()` of the named input file. -/
  | closeFile (name : GoString)
  /-- The call `log.Fatal(err)`: one line on standard error, then `os.Exit(1)`. -/
  | fatal (e : GoError)
  /-- A panic that reaches the top of the goroutine and aborts the process. -/
  | crash (v : PanicValue)
  deriving DecidableEq, Repr

/-- The deferred function of `decode` (lines 99-103): the recovered value is
converted by the unchecked assertion `e.(error)`, which itself panics with a
`runtime.TypeAssertionError` when the value is not an `error`. -/
def recoverDecode : PanicValue → Outcome ErrorValue
  | .err e => .ret (some e)
  | .other _ => .panic (.err .typeAssertion)

/-- The function `decode` (lines 98-112): the writes made on `out` and how the
call ends. -/
def decode (codec : Codec) (input : Option Reader) (out : Writer) :
    List Event × Outcome ErrorValue :=
  match codec.Decode input with
  | .panic v => ([], recoverDecode v)
  | .ret (.error e) => ([], .ret (some e))
  | .ret (.ok du) =>
    match out.write du.data with
    | .ret e => ([.write du.data], .ret e)
    | .panic v => ([.write du.data], recoverDecode v)

/-- The deferred function of `encode` (lines 115-124): the recovered value is
converted by the checked assertion `err, ok = e.(error)`, and a value that is
not an `error` becomes `fmt.Errorf("%v", e)`. -/
def recoverEncode : PanicValue → GoError
  | .err e => e
  | .other s => .errorf s

/-- The function `encode` (lines 114-135): the serialization and the writes
made on `out`, and how the call ends. -/
def encode (codec : Codec) (input : Option Reader) (out : Writer) (encoding : Encoding)
    (mediatype : GoString) : List Event × Outcome ErrorValue :=
  match ioReadAll input with
  | .panic v => ([], .ret (some (recoverEncode v)))
  | .ret (_, some e) => ([], .ret (some e))
  | .ret (b, none) =>
    match codec.New b mediatype with
    | .panic v => ([], .ret (some (recoverEncode v)))
    | .ret du =>
      (.serialize { du with encoding := encoding } ::
          (codec.WriteTo { du with encoding := encoding } out).1.map .write,
        match (codec.WriteTo { du with encoding := encoding } out).2 with
        | .ret e => .ret e
        | .panic v => .ret (some (recoverEncode v)))

/-- The package-level flag variables after `flag.Parse()`. -/
structure Flags where
  performDecode : Bool
  asciiEncoding : Bool
  mimetype : GoString

/-- The environment of a run: the content of standard input, the result of
`os.Open` for every name (an error, or what reading the opened file gives),
the table behind `mime.TypeByExtension`, standard output, and the codec
package. -/
structure World where
  stdin : Outcome (Bytes × ErrorValue)
  openFile : GoString → Except GoError (Outcome (Bytes × ErrorValue))
  typeByExtension : GoString → GoString
  stdout : Writer
  codec : Codec

/-- The loop of Go's `path.Ext`, run on the reversed path: it walks back from
the last byte, stops with the empty string at a `/`, and returns the suffix
starting at the first `.` it meets. -/
def extScan : Bytes → GoString → GoString
  | [], _ => []
  | c :: cs, acc =>
    if c = 47 then [] else if c = 46 then c :: acc else extScan cs (c :: acc)

/-- Go's `path.Ext`. -/
def pathExt (p : GoString) : GoString := extScan p.reverse []

/-- The reader of standard input, `os.Stdin`. -/
def stdinReader (w : World) : Reader := ⟨.stdin, w.stdin⟩

/-- The variables set by the `switch` on `flag.NArg()`: `in` (`none` is the
nil reader), `detectedMimetype`, and the opened file whose `Close` is
deferred. -/
structure Selected where
  input : Option Reader
  detectedMimetype : GoString
  opened : Option GoString

/-- The `switch` on `flag.NArg()` (lines 59-75): the events it causes, and
either the error of `os.Open`, on which `log.Fatal` is called, or the
variables it sets. -/
def selectInput (w : World) (args : List GoString) : List Event × Except GoError Selected :=
  match args with
  | [] => ([], .ok ⟨some (stdinReader w), [], none⟩)
  | [a] =>
    if a = str "-" then ([], .ok ⟨some (stdinReader w), [], none⟩)
    else
      match w.openFile a with
      | .error e => ([.openFile a], .error e)
      | .ok f =>
        ([.openFile a], .ok ⟨some ⟨.file a, f⟩, w.typeByExtension (pathExt a), some a⟩)
  | _ :: _ :: _ => ([], .ok ⟨none, [], none⟩)

/-- The `switch` on the mimetype (lines 77-82): the value of `mimetype`
after it. -/
def resolveMimetype (mimetype detectedMimetype : GoString) : GoString :=
  if mimetype = [] ∧ detectedMimetype = [] then str "application/octet-stream"
  else if mimetype = [] ∧ detectedMimetype ≠ [] then detectedMimetype
  else mimetype

/-- The value of `encoding` at the call of `encode` (lines 56, 89-91). -/
def selectEncoding (asciiEncoding : Bool) : Encoding :=
  if asciiEncoding then .EncodingASCII else .EncodingBase64

/-- A finished run: its events and the exit status of the process. -/
structure Run where
  events : List Event
  exitCode : Nat
  deriving DecidableEq, Repr

/-- The deferred calls of `main`, run when `main` returns or panics. -/
def runDeferred : Option GoString → List Event
  | none => []
  | some a => [.closeFile a]

/-- The end of `main` after `decode` or `encode` has ended (lines 85-87 and
92-94).  A nil error lets `main` return: the deferred calls run and the
status is 0.  A non-nil error goes to `log.Fatal`, which exits with status 1
through `os.Exit`, so the deferred calls do not run.  A panic unwinds `main`,
running the deferred calls, and aborts the process with status 2. -/
def finishMain (opened : Option GoString) : Outcome ErrorValue → Run
  | .ret none => ⟨runDeferred opened, 0⟩
  | .ret (some e) => ⟨[.fatal e], 1⟩
  | .panic v => ⟨runDeferred opened ++ [.crash v], 2⟩

/-- The function `main` (lines 49-96). -/
def main (w : World) (flags : Flags) (args : List GoString) : Run :=
  match selectInput w args with
  | (evs, .error e) => ⟨evs ++ [.fatal e], 1⟩
  | (evs, .ok sel) =>
    if flags.performDecode then
      ⟨evs ++ .callDecode sel.input :: (decode w.codec sel.input w.stdout).1 ++
          (finishMain sel.opened (decode w.codec sel.input w.stdout).2).events,
        (finishMain sel.opened (decode w.codec sel.input w.stdout).2).exitCode⟩
    else
      ⟨evs ++ .callEncode sel.input (selectEncoding flags.asciiEncoding)
            (resolveMimetype flags.mimetype sel.detectedMimetype) ::
          (encode w.codec sel.input w.stdout (selectEncoding flags.asciiEncoding)
            (resolveMimetype flags.mimetype sel.detectedMimetype)).1 ++
          (finishMain sel.opened (encode w.codec sel.input w.stdout
            (selectEncoding flags.asciiEncoding)
            (resolveMimetype flags.mimetype sel.detectedMimetype)).2).events,
        (finishMain sel.opened (encode w.codec sel.input w.stdout
            (selectEncoding flags.asciiEncoding)
            (resolveMimetype flags.mimetype sel.detectedMimetype)).2).exitCode⟩

/-- A writer that accepts every write without error. -/
def okWriter : Writer := ⟨fun _ => .ret none⟩

/-- A writer whose `Write` panics with a value that is not an `error`. -/
def panickingWriter : Writer := ⟨fun _ => .panic (.other "boom")⟩

/-- A world with an empty standard input, a single file `in.txt` holding the
given content, an extension table knowing `.txt` only, a standard output that
accepts every write, and the codec of the specification. -/
def sampleWorld (content : Bytes) : World where
  stdin := .ret ([], none)
  openFile := fun name =>
    if name = str "in.txt" then .ok (.ret (content, none))
    else .error (.system "open: no such file or directory")
  typeByExtension := fun ext => if ext = str ".txt" then str "text/plain" else []
  stdout := okWriter
  codec := specCodec

/-- A world like `sampleWorld` whose standard output panics, on every write,
with a value that is not an `error`. -/
def panickingWorld (content : Bytes) : World :=
  { sampleWorld content with stdout := panickingWriter }

/-- A codec whose `Decode` panics with a value that is not an `error`. -/
def panickingCodec : Codec :=
  { specCodec with Decode := fun _ => .panic (.other "invalid input") }

/-- Whether an event is the call of `decode` or of `encode`. -/
def Event.isCall : Event → Bool
  | .callDecode _ => true
  | .callEncode _ _ _ => true
  | _ => false

/-- The calls of `decode` and `encode` made during a run, in order. -/
def calls (evs : List Event) : List Event := evs.filter Event.isCall

/-- The byte sequences written to standard output during a run, in order. -/
def writes : List Event → List Bytes
  | [] => []
  | .write b :: evs => b :: writes evs
  | _ :: evs => writes evs

/-! ## The codec model on the examples of the specification -/

theorem Encode_empty_base64 :
    Encode ⟨str "text/plain", [], .EncodingBase64, []⟩ = str "data:text/plain;base64," := by
  decide

theorem Decode_hello_base64 :
    Decode (str "data:text/plain;base64,SGVsbG8=") =
      .ok ⟨str "text/plain", [], .EncodingBase64, str "Hello"⟩ := by
  decide

theorem Decode_hello_ascii :
    Decode (str "data:,Hello%2C%20World%21") =
      .ok ⟨[], [], .EncodingASCII, str "Hello, World!"⟩ := by
  decide

theorem Decode_without_scheme :
    Decode (str "text/plain;base64,SGVsbG8=") = .error (.format .missingDataScheme) := by
  decide

theorem Decode_invalid_base64 :
    Decode (str "data:text/plain;base64,not-valid-base64!!!") =
      .error (.format .invalidBase64) := by
  decide

theorem Encode_space_ascii :
    Encode ⟨str "text/plain", [], .EncodingASCII, str "a b"⟩ = str "data:text/plain,a%20b" := by
  decide

theorem pathExt_examples :
    pathExt (str "a/b.c/in.tar.gz") = str ".gz" ∧ pathExt (str "a/b.c/in") = [] ∧
      pathExt (str "in.txt") = str ".txt" := by
  decide

/-! ## Facts about the program shared by the results below -/

theorem calls_append (xs ys : List Event) : calls (xs ++ ys) = calls xs ++ calls ys := by
  simp [calls]

theorem calls_selectInput (w : World) (args : List GoString) :
    calls (selectInput w args).1 = [] := by
  unfold selectInput
  split
  · rfl
  · split
    · rfl
    · split <;> rfl
  · rfl

theorem calls_map_write (bs : List Bytes) : calls (bs.map Event.write) = [] := by
  induction bs with
  | nil => rfl
  | cons b bs ih => simp [calls, Event.isCall]

theorem calls_decode (codec : Codec) (input : Option Reader) (out : Writer) :
    calls (decode codec input out).1 = [] := by
  unfold decode
  split
  · rfl
  · rfl
  · split <;> rfl

theorem calls_encode (codec : Codec) (input : Option Reader) (out : Writer) (enc : Encoding)
    (m : GoString) : calls (encode codec input out enc m).1 = [] := by
  unfold encode
  split
  · rfl
  · rfl
  · split
    · rfl
    · rename_i du _
      have h := calls_map_write (codec.WriteTo { du with encoding := enc } out).1
      rw [← List.singleton_append, calls_append, h]
      rfl

theorem calls_finishMain (opened : Option GoString) (r : Outcome ErrorValue) :
    calls (finishMain opened r).events = [] := by
  cases opened <;> rcases r with (_ | e) | v <;> rfl

/-- When the input selection does not end in `log.Fatal`, `main` makes exactly
one call: `decode` on the selected reader in decode mode, and `encode` on the
selected reader with the selected encoding and the resolved mimetype
otherwise. -/
theorem calls_main (w : World) (flags : Flags) (args : List GoString) (evs : List Event)
    (sel : Selected) (hs : selectInput w args = (evs, .ok sel)) :
    calls (main w flags args).events =
      [if flags.performDecode then Event.callDecode sel.input
        else Event.callEncode sel.input (selectEncoding flags.asciiEncoding)
          (resolveMimetype flags.mimetype sel.detectedMimetype)] := by
  have he : calls evs = [] := by
    have h := calls_selectInput w args
    rw [hs] at h
    exact h
  unfold main
  rw [hs]
  cases flags.performDecode
  · simp only [Bool.false_eq_true, if_false]
    rw [calls_append, calls_append, he, ← List.singleton_append, calls_append, calls_encode,
      calls_finishMain]
    rfl
  · simp only [if_true]
    rw [calls_append, calls_append, he, ← List.singleton_append, calls_append, calls_decode,
      calls_finishMain]
    rfl

/-- When `os.Open` fails, `main` ends in `log.Fatal` right after it. -/
theorem main_of_open_error (w : World) (flags : Flags) (args : List GoString)
    (evs : List Event) (e : GoError) (hs : selectInput w args = (evs, .error e)) :
    main w flags args = ⟨evs ++ [.fatal e], 1⟩ := by
  unfold main
  rw [hs]

theorem selectInput_stdin (w : World) (args : List GoString)
    (h : args = [] ∨ args = [str "-"]) :
    selectInput w args = ([], .ok ⟨some (stdinReader w), [], none⟩) := by
  rcases h with h | h <;> subst h <;> simp [selectInput]

theorem selectInput_file (w : World) (a : GoString) (f : Outcome (Bytes × ErrorValue))
    (ha : a ≠ str "-") (hf : w.openFile a = .ok f) :
    selectInput w [a] =
      ([.openFile a], .ok ⟨some ⟨.file a, f⟩, w.typeByExtension (pathExt a), some a⟩) := by
  simp [selectInput, ha, hf]

theorem selectInput_open_error (w : World) (a : GoString) (e : GoError)
    (ha : a ≠ str "-") (hf : w.openFile a = .error e) :
    selectInput w [a] = ([.openFile a], .error e) := by
  simp [selectInput, ha, hf]

theorem selectInput_many (w : World) (args : List GoString) (h : 2 ≤ args.length) :
    selectInput w args = ([], .ok ⟨none, [], none⟩) := by
  match args, h with
  | _ :: _ :: _, _ => rfl

theorem mem_selectInput (w : World) (args : List GoString) (ev : Event)
    (h : ev ∈ (selectInput w args).1) : ∃ a, ev = .openFile a := by
  unfold selectInput at h
  split at h
  · simp at h
  · split at h
    · simp at h
    · rename_i a _
      split at h <;> exact ⟨a, by simpa using h⟩
  · simp at h

theorem mem_decode (codec : Codec) (input : Option Reader) (out : Writer) (ev : Event)
    (h : ev ∈ (decode codec input out).1) : ∃ b, ev = .write b := by
  unfold decode at h
  split at h
  · simp at h
  · simp at h
  · rename_i du _
    split at h <;> exact ⟨du.data, by simpa using h⟩

theorem mem_encode (codec : Codec) (input : Option Reader) (out : Writer) (enc : Encoding)
    (m : GoString) (ev : Event) (h : ev ∈ (encode codec input out enc m).1) :
    (∃ b du, ioReadAll input = .ret (b, none) ∧ codec.New b m = .ret du ∧
        ev = .serialize { du with encoding := enc }) ∨ ∃ b, ev = .write b := by
  unfold encode at h
  split at h
  · simp at h
  · simp at h
  · rename_i b hb
    split at h
    · simp at h
    · rename_i du hdu
      rcases List.mem_cons.1 h with h | h
      · exact Or.inl ⟨b, du, hb, hdu, h⟩
      · obtain ⟨x, _, hx⟩ := List.mem_map.1 h
        exact Or.inr ⟨x, hx.symm⟩

theorem mem_finishMain (opened : Option GoString) (r : Outcome ErrorValue) (ev : Event)
    (h : ev ∈ (finishMain opened r).events) :
    (∃ a, opened = some a ∧ ev = .closeFile a) ∨ (∃ e, ev = .fatal e) ∨ ∃ v, ev = .crash v := by
  cases opened <;> rcases r with (_ | e) | v <;> simp [finishMain, runDeferred] at h
  · simp [h]
  · simp [h]
  · simp [h]
  · simp [h]
  · rcases h with h | h <;> simp [h]

/-- Every call made by `main` is the single call described by `calls_main`;
there is none when `os.Open` fails. -/
theorem mem_calls_main (w : World) (flags : Flags) (args : List GoString) (ev : Event)
    (h : ev ∈ calls (main w flags args).events) :
    ∃ evs sel, selectInput w args = (evs, .ok sel) ∧
      ev = if flags.performDecode then Event.callDecode sel.input
        else Event.callEncode sel.input (selectEncoding flags.asciiEncoding)
          (resolveMimetype flags.mimetype sel.detectedMimetype) := by
  rcases hs : selectInput w args with ⟨evs, e | sel⟩
  · have he : calls evs = [] := by
      have h0 := calls_selectInput w args
      rw [hs] at h0
      exact h0
    rw [main_of_open_error w flags args evs e hs, calls_append, he] at h
    simp [calls, Event.isCall] at h
  · rw [calls_main w flags args evs sel hs] at h
    exact ⟨evs, sel, rfl, by simpa using h⟩

/-! ## Results on the program -/

/-- C2: a forced mimetype overrides detection.  For every non-empty value of
the `-mimetype` flag the switch on the mimetype leaves it unchanged whatever
was detected, and in encode mode the one call of `encode` that `main` makes
receives exactly that value as its mediatype. -/
theorem forced_mimetype_overrides (w : World) (flags : Flags) (args : List GoString)
    (hv : flags.mimetype ≠ []) :
    (∀ detected, resolveMimetype flags.mimetype detected = flags.mimetype) ∧
    (∀ evs sel, selectInput w args = (evs, .ok sel) → flags.performDecode = false →
      calls (main w flags args).events =
        [.callEncode sel.input (selectEncoding flags.asciiEncoding) flags.mimetype]) := by
  have hr : ∀ detected, resolveMimetype flags.mimetype detected = flags.mimetype := by
    intro detected
    simp [resolveMimetype, hv]
  refine ⟨hr, ?_⟩
  intro evs sel hs hd
  rw [calls_main w flags args evs sel hs, hd, hr]
  rfl

theorem forced_mimetype_overrides_witness :
    str "image/png" ≠ [] ∧
    resolveMimetype (str "image/png") (str "text/plain") = str "image/png" ∧
    calls (main (sampleWorld (str "hi")) ⟨false, false, str "image/png"⟩ [str "in.txt"]).events =
      [.callEncode (some ⟨.file (str "in.txt"), .ret (str "hi", none)⟩) .EncodingBase64
        (str "image/png")] :=
  ⟨by decide,
    (forced_mimetype_overrides (sampleWorld (str "hi")) ⟨false, false, str "image/png"⟩
      [str "in.txt"] (by decide)).1 (str "text/plain"),
    (forced_mimetype_overrides (sampleWorld (str "hi")) ⟨false, false, str "image/png"⟩
      [str "in.txt"] (by decide)).2 _ _ rfl rfl⟩

/-- C3: mimetype detection and default.  With an empty `-mimetype` flag, in
encode mode, the mediatype that `main` passes to `encode` is the extension
table's type for the extension of the named file when that lookup is not
empty, and `application/octet-stream` in every other case: the lookup is
empty, the input is standard input (no argument, or the argument `-`), or
there are two or more arguments. -/
theorem mimetype_detection_default (w : World) (flags : Flags) (args : List GoString)
    (hm : flags.mimetype = []) (hd : flags.performDecode = false) :
    (∀ a f, args = [a] → a ≠ str "-" → w.openFile a = .ok f →
      w.typeByExtension (pathExt a) ≠ [] →
      calls (main w flags args).events =
        [.callEncode (some ⟨.file a, f⟩) (selectEncoding flags.asciiEncoding)
          (w.typeByExtension (pathExt a))]) ∧
    (∀ a f, args = [a] → a ≠ str "-" → w.openFile a = .ok f →
      w.typeByExtension (pathExt a) = [] →
      calls (main w flags args).events =
        [.callEncode (some ⟨.file a, f⟩) (selectEncoding flags.asciiEncoding)
          (str "application/octet-stream")]) ∧
    (args = [] ∨ args = [str "-"] →
      calls (main w flags args).events =
        [.callEncode (some (stdinReader w)) (selectEncoding flags.asciiEncoding)
          (str "application/octet-stream")]) ∧
    (2 ≤ args.length →
      calls (main w flags args).events =
        [.callEncode none (selectEncoding flags.asciiEncoding)
          (str "application/octet-stream")]) := by
  refine ⟨?_, ?_, ?_, ?_⟩
  · intro a f ha hne hf ht
    subst ha
    rw [calls_main w flags [a] _ _ (selectInput_file w a f hne hf), hd, hm]
    simp [resolveMimetype, ht]
  · intro a f ha hne hf ht
    subst ha
    rw [calls_main w flags [a] _ _ (selectInput_file w a f hne hf), hd, hm]
    simp [resolveMimetype, ht]
  · intro h
    rw [calls_main w flags args _ _ (selectInput_stdin w args h), hd, hm]
    simp [resolveMimetype]
  · intro h
    rw [calls_main w flags args _ _ (selectInput_many w args h), hd, hm]
    simp [resolveMimetype]

theorem mimetype_detection_default_witness :
    calls (main (sampleWorld (str "hi")) ⟨false, false, []⟩ [str "in.txt"]).events =
      [.callEncode (some ⟨.file (str "in.txt"), .ret (str "hi", none)⟩) .EncodingBase64
        (str "text/plain")] ∧
    calls (main (sampleWorld (str "hi")) ⟨false, false, []⟩ []).events =
      [.callEncode (some ⟨.stdin, .ret ([], none)⟩) .EncodingBase64
        (str "application/octet-stream")] :=
  ⟨(mimetype_detection_default (sampleWorld (str "hi")) ⟨false, false, []⟩ [str "in.txt"]
      rfl rfl).1 _ _ rfl (by decide) rfl (by decide),
    (mimetype_detection_default (sampleWorld (str "hi")) ⟨false, false, []⟩ []
      rfl rfl).2.2.1 (Or.inl rfl)⟩

/-- C4: input source selection.  With no positional argument, or with the
single argument `-`, the one call that `main` makes reads standard input.
With any other single argument whose file opens, it reads the file opened
under that name.  When opening that file fails, the run consists of the
`os.Open` call and `log.Fatal` alone and exits with status 1: neither
`decode` nor `encode` is called and nothing is written to standard output. -/
theorem input_source_selection (w : World) (flags : Flags) (args : List GoString) :
    (args = [] ∨ args = [str "-"] →
      calls (main w flags args).events =
        [if flags.performDecode then Event.callDecode (some (stdinReader w))
          else Event.callEncode (some (stdinReader w)) (selectEncoding flags.asciiEncoding)
            (resolveMimetype flags.mimetype [])]) ∧
    (∀ a f, args = [a] → a ≠ str "-" → w.openFile a = .ok f →
      calls (main w flags args).events =
        [if flags.performDecode then Event.callDecode (some ⟨.file a, f⟩)
          else Event.callEncode (some ⟨.file a, f⟩) (selectEncoding flags.asciiEncoding)
            (resolveMimetype flags.mimetype (w.typeByExtension (pathExt a)))]) ∧
    (∀ a e, args = [a] → a ≠ str "-" → w.openFile a = .error e →
      main w flags args = ⟨[.openFile a, .fatal e], 1⟩ ∧
      calls (main w flags args).events = [] ∧ writes (main w flags args).events = []) := by
  refine ⟨?_, ?_, ?_⟩
  · intro h
    rw [calls_main w flags args _ _ (selectInput_stdin w args h)]
  · intro a f ha hne hf
    subst ha
    rw [calls_main w flags [a] _ _ (selectInput_file w a f hne hf)]
  · intro a e ha hne hf
    subst ha
    have hmain := main_of_open_error w flags [a] _ e (selectInput_open_error w a e hne hf)
    rw [hmain]
    exact ⟨rfl, rfl, rfl⟩

theorem input_source_selection_witness :
    calls (main (sampleWorld (str "hi")) ⟨true, false, []⟩ [str "-"]).events =
      [.callDecode (some ⟨.stdin, .ret ([], none)⟩)] ∧
    calls (main (sampleWorld (str "hi")) ⟨true, false, []⟩ [str "in.txt"]).events =
      [.callDecode (some ⟨.file (str "in.txt"), .ret (str "hi", none)⟩)] ∧
    main (sampleWorld (str "hi")) ⟨true, false, []⟩ [str "missing"] =
      ⟨[.openFile (str "missing"), .fatal (.system "open: no such file or directory")], 1⟩ :=
  ⟨(input_source_selection (sampleWorld (str "hi")) ⟨true, false, []⟩ [str "-"]).1
      (Or.inr rfl),
    (input_source_selection (sampleWorld (str "hi")) ⟨true, false, []⟩ [str "in.txt"]).2.1
      _ _ rfl (by decide) rfl,
    ((input_source_selection (sampleWorld (str "hi")) ⟨true, false, []⟩ [str "missing"]).2.2
      _ _ rfl (by decide) rfl).1⟩

/-- C9: the resolved mimetype is never empty.  For every value of the
`-mimetype` flag and every detection result the switch on the mimetype
leaves a non-empty string, every call of `encode` made by `main` receives a
non-empty mediatype, and therefore the codec's substitution of `text/plain`
for an empty mediatype leaves the resolved mimetype as it is. -/
theorem resolved_mimetype_nonempty (w : World) (flags : Flags) (args : List GoString) :
    (∀ detected, resolveMimetype flags.mimetype detected ≠ []) ∧
    (∀ r e m, Event.callEncode r e m ∈ (main w flags args).events → m ≠ []) ∧
    (∀ detected, mediatypeOrDefault (resolveMimetype flags.mimetype detected) =
      resolveMimetype flags.mimetype detected) := by
  have hr : ∀ m detected : GoString, resolveMimetype m detected ≠ [] := by
    intro m detected
    unfold resolveMimetype
    by_cases h1 : m = [] <;> by_cases h2 : detected = [] <;> simp [h1, h2]
    decide
  refine ⟨hr _, ?_, ?_⟩
  · intro r e m hmem
    have hc : Event.callEncode r e m ∈ calls (main w flags args).events :=
      List.mem_filter.2 ⟨hmem, rfl⟩
    obtain ⟨evs, sel, _, heq⟩ := mem_calls_main w flags args _ hc
    cases hpd : flags.performDecode
    · simp only [hpd, Bool.false_eq_true, if_false] at heq
      injection heq with _ _ h3
      rw [h3]
      exact hr _ _
    · simp [hpd] at heq
  · intro detected
    simp [mediatypeOrDefault, hr]

theorem resolved_mimetype_nonempty_witness :
    str "application/octet-stream" ≠ [] :=
  (resolved_mimetype_nonempty (sampleWorld (str "hi")) ⟨false, false, []⟩ []).2.1
    (some ⟨.stdin, .ret ([], none)⟩) .EncodingBase64 (str "application/octet-stream")
    (by decide)

/-- C10: extra positional arguments.  With two or more positional arguments
the switch on `flag.NArg()` opens no file and leaves `in` nil and the
detected mimetype empty; no `os.Open` occurs in the run, and `main` still
makes its one call, `decode` or `encode`, with the nil reader. -/
theorem extra_positional_arguments (w : World) (flags : Flags) (args : List GoString)
    (h : 2 ≤ args.length) :
    selectInput w args = ([], .ok ⟨none, [], none⟩) ∧
    (∀ a, Event.openFile a ∉ (main w flags args).events) ∧
    calls (main w flags args).events =
      [if flags.performDecode then Event.callDecode none
        else Event.callEncode none (selectEncoding flags.asciiEncoding)
          (resolveMimetype flags.mimetype [])] := by
  have hs := selectInput_many w args h
  refine ⟨hs, ?_, calls_main w flags args _ _ hs⟩
  intro a hmem
  unfold main at hmem
  rw [hs] at hmem
  cases hpd : flags.performDecode
  · simp only [hpd, Bool.false_eq_true, if_false, List.nil_append, List.cons_append,
      List.mem_cons, List.mem_append] at hmem
    rcases hmem with hmem | hmem | hmem
    · cases hmem
    · rcases mem_encode _ _ _ _ _ _ hmem with ⟨_, _, _, _, h1⟩ | ⟨_, h1⟩ <;> cases h1
    · rcases mem_finishMain _ _ _ hmem with ⟨_, _, h1⟩ | ⟨_, h1⟩ | ⟨_, h1⟩ <;> cases h1
  · simp only [hpd, if_true, List.nil_append, List.cons_append,
      List.mem_cons, List.mem_append] at hmem
    rcases hmem with hmem | hmem | hmem
    · cases hmem
    · obtain ⟨_, h1⟩ := mem_decode _ _ _ _ hmem
      cases h1
    · rcases mem_finishMain _ _ _ hmem with ⟨_, _, h1⟩ | ⟨_, h1⟩ | ⟨_, h1⟩ <;> cases h1

theorem extra_positional_arguments_witness :
    2 ≤ [str "in.txt", str "b"].length ∧
    calls (main (sampleWorld (str "hi")) ⟨false, true, []⟩ [str "in.txt", str "b"]).events =
      [.callEncode none .EncodingASCII (str "application/octet-stream")] :=
  ⟨by decide,
    (extra_positional_arguments (sampleWorld (str "hi")) ⟨false, true, []⟩
      [str "in.txt", str "b"] (by decide)).2.2⟩

/-- C5: encoding variant selection.  In encode mode the encoding handed to
`encode` is the ASCII variant exactly when the `-ascii` flag is set and the
Base64 variant exactly when it is not.  When the input is read to its end as
`b` and `datauri.New(b, mimetype)` returns `du` for the resolved mimetype, the
run serializes `du` with its encoding set to that variant; and every `DataURI`
serialized in the run arises in this way. -/
theorem encoding_variant_selection (w : World) (flags : Flags) (args : List GoString)
    (evs : List Event) (sel : Selected) (hd : flags.performDecode = false)
    (hs : selectInput w args = (evs, .ok sel)) :
    (selectEncoding flags.asciiEncoding = .EncodingASCII ↔ flags.asciiEncoding = true) ∧
    (selectEncoding flags.asciiEncoding = .EncodingBase64 ↔ flags.asciiEncoding = false) ∧
    (∀ b du, ioReadAll sel.input = .ret (b, none) →
      w.codec.New b (resolveMimetype flags.mimetype sel.detectedMimetype) = .ret du →
      Event.serialize { du with encoding := selectEncoding flags.asciiEncoding } ∈
        (main w flags args).events) ∧
    (∀ du1, Event.serialize du1 ∈ (main w flags args).events →
      ∃ b du, ioReadAll sel.input = .ret (b, none) ∧
        w.codec.New b (resolveMimetype flags.mimetype sel.detectedMimetype) = .ret du ∧
        du1 = { du with encoding := selectEncoding flags.asciiEncoding }) := by
  refine ⟨?_, ?_, ?_, ?_⟩
  · cases flags.asciiEncoding <;> simp [selectEncoding]
  · cases flags.asciiEncoding <;> simp [selectEncoding]
  · intro b du hb hdu
    unfold main
    rw [hs]
    simp only [hd, Bool.false_eq_true, if_false]
    apply List.mem_append_left
    apply List.mem_append_right
    apply List.mem_cons_of_mem
    unfold encode
    simp only [hb, hdu]
    exact List.mem_cons_self _ _
  · intro du1 hmem
    unfold main at hmem
    rw [hs] at hmem
    simp only [hd, Bool.false_eq_true, if_false, List.mem_append, List.mem_cons] at hmem
    rcases hmem with (hmem | hmem | hmem) | hmem
    · have h0 := mem_selectInput w args (.serialize du1) (by rw [hs]; exact hmem)
      obtain ⟨_, h1⟩ := h0
      cases h1
    · cases hmem
    · rcases mem_encode _ _ _ _ _ _ hmem with ⟨b, du, hb, hdu, h1⟩ | ⟨_, h1⟩
      · injection h1 with h1
        exact ⟨b, du, hb, hdu, h1⟩
      · cases h1
    · rcases mem_finishMain _ _ _ hmem with ⟨_, _, h1⟩ | ⟨_, h1⟩ | ⟨_, h1⟩ <;> cases h1

theorem encoding_variant_selection_witness :
    Event.serialize ⟨str "text/plain", [], .EncodingASCII, str "hi"⟩ ∈
      (main (sampleWorld (str "hi")) ⟨false, true, []⟩ [str "in.txt"]).events :=
  (encoding_variant_selection (sampleWorld (str "hi")) ⟨false, true, []⟩ [str "in.txt"]
    _ _ rfl rfl).2.2.1 (str "hi") ⟨str "text/plain", [], .EncodingBase64, str "hi"⟩ rfl rfl

/-- C6: decode output and failure.  When the codec's `Decode` returns an
error, `decode` returns that same non-nil error and writes nothing.  When
`Decode` returns a `DataURI`, `decode` makes exactly one write, of the bytes
of its data and nothing else, and returns the error that this write
returns. -/
theorem decode_output_and_failure (codec : Codec) (input : Option Reader) (out : Writer) :
    (∀ e, codec.Decode input = .ret (.error e) →
      decode codec input out = ([], .ret (some e))) ∧
    (∀ du, codec.Decode input = .ret (.ok du) →
      (decode codec input out).1 = [.write du.data] ∧
      ∀ r, out.write du.data = .ret r → (decode codec input out).2 = .ret r) := by
  refine ⟨?_, ?_⟩
  · intro e he
    simp [decode, he]
  · intro du hdu
    refine ⟨?_, ?_⟩
    · simp only [decode, hdu]
      split <;> rfl
    · intro r hr
      simp [decode, hdu, hr]

theorem decode_output_and_failure_witness :
    decode specCodec (some ⟨.stdin, .ret (str "hi", none)⟩) okWriter =
      ([], .ret (some (.format .missingDataScheme))) ∧
    (decode specCodec (some ⟨.stdin, .ret (str "data:;base64,aGk=", none)⟩) okWriter).1 =
      [.write (str "hi")] ∧
    (decode specCodec (some ⟨.stdin, .ret (str "data:;base64,aGk=", none)⟩) okWriter).2 =
      .ret none :=
  ⟨(decode_output_and_failure specCodec (some ⟨.stdin, .ret (str "hi", none)⟩) okWriter).1
      _ (by decide),
    ((decode_output_and_failure specCodec
      (some ⟨.stdin, .ret (str "data:;base64,aGk=", none)⟩) okWriter).2
      ⟨[], [], .EncodingBase64, str "hi"⟩ (by decide)).1,
    ((decode_output_and_failure specCodec
      (some ⟨.stdin, .ret (str "data:;base64,aGk=", none)⟩) okWriter).2
      ⟨[], [], .EncodingBase64, str "hi"⟩ (by decide)).2 none rfl⟩

/-- C7: a panic value that is not an `error` escapes `decode`.  With a writer
whose `Write` panics with a non-error value, or a codec whose `Decode` does,
`decode` does not return: the
unchecked assertion in its deferred function panics in turn, and `main` is
aborted by that panic (after running its deferred `Close`), with the crash
status.  On the same writer `encode` returns normally with the
`fmt.Errorf` error, and `main` ends in `log.Fatal`. -/
theorem decode_nonerror_panic_escapes :
    decode specCodec (some ⟨.stdin, .ret (str "data:,x", none)⟩) panickingWriter =
      ([.write (str "x")], .panic (.err .typeAssertion)) ∧
    encode specCodec (some ⟨.stdin, .ret (str "x", none)⟩) panickingWriter .EncodingASCII
        (str "text/plain") =
      ([.serialize ⟨str "text/plain", [], .EncodingASCII, str "x"⟩,
          .write (str "data:text/plain,x")],
        .ret (some (.errorf "boom"))) ∧
    main (panickingWorld (str "data:,x")) ⟨true, false, []⟩ [str "in.txt"] =
      ⟨[.openFile (str "in.txt"),
          .callDecode (some ⟨.file (str "in.txt"), .ret (str "data:,x", none)⟩),
          .write (str "x"), .closeFile (str "in.txt"), .crash (.err .typeAssertion)], 2⟩ ∧
    (main (panickingWorld (str "x")) ⟨false, true, str "text/plain"⟩ [str "in.txt"]).exitCode
      = 1 ∧
    decode panickingCodec (some ⟨.stdin, .ret (str "data:,x", none)⟩) okWriter =
      ([], .panic (.err .typeAssertion)) := by
  refine ⟨?_, ?_, ?_, ?_, ?_⟩ <;> decide

/-- C8: the input file is not closed on the fatal-error paths.  Decoding a
named file that holds no data URI makes `decode` return an error; `main`
then ends in `log.Fatal` with status 1 and the run has no `Close` of the file
it opened.  The same holds in encode mode when `encode` returns an error.
On the path where `decode` returns nil the file is closed. -/
theorem input_file_not_closed_on_fatal :
    main (sampleWorld (str "hi")) ⟨true, false, []⟩ [str "in.txt"] =
      ⟨[.openFile (str "in.txt"),
          .callDecode (some ⟨.file (str "in.txt"), .ret (str "hi", none)⟩),
          .fatal (.format .missingDataScheme)], 1⟩ ∧
    Event.closeFile (str "in.txt") ∉
      (main (sampleWorld (str "hi")) ⟨true, false, []⟩ [str "in.txt"]).events ∧
    main (panickingWorld (str "x")) ⟨false, true, []⟩ [str "in.txt"] =
      ⟨[.openFile (str "in.txt"),
          .callEncode (some ⟨.file (str "in.txt"), .ret (str "x", none)⟩) .EncodingASCII
            (str "text/plain"),
          .serialize ⟨str "text/plain", [], .EncodingASCII, str "x"⟩,
          .write (str "data:text/plain,x"), .fatal (.errorf "boom")], 1⟩ ∧
    main (sampleWorld (str "data:,hi")) ⟨true, false, []⟩ [str "in.txt"] =
      ⟨[.openFile (str "in.txt"),
          .callDecode (some ⟨.file (str "in.txt"), .ret (str "data:,hi", none)⟩),
          .write (str "hi"), .closeFile (str "in.txt")], 0⟩ := by
  refine ⟨?_, ?_, ?_, ?_⟩ <;> decide

/-! ## The round trip through the codec -/

theorem b64val_b64char (n : Nat) (h : n < 64) : b64val (b64char n) = some n := by
  have key : ∀ k : Fin 64, b64val (b64char k.val) = some k.val := by decide
  exact key ⟨n, h⟩

theorem b64char_ne_pad (n : Nat) (h : n < 64) : b64char n ≠ b64pad := by
  have key : ∀ k : Fin 64, b64char k.val ≠ b64pad := by decide
  exact key ⟨n, h⟩

theorem hexVal_hexDigit (n : Nat) (h : n < 16) : hexVal (hexDigit n) = some n := by
  have key : ∀ k : Fin 16, hexVal (hexDigit k.val) = some k.val := by decide
  exact key ⟨n, h⟩

theorem byte_val (c : Byte) : byte c.val = c := by
  apply Fin.ext
  simp only [byte]
  exact Nat.mod_eq_of_lt c.isLt

theorem b64encode_eq_nil (d : Bytes) : b64encode d = [] ↔ d = [] := by
  match d with
  | [] => simp [b64encode]
  | [_] => simp [b64encode]
  | [_, _] => simp [b64encode]
  | _ :: _ :: _ :: _ => simp [b64encode]

theorem byte_of_sextets_first (a b : Byte) :
    byte (a.val / 4 * 4 + (a.val % 4 * 16 + b.val / 16) / 16) = a := by
  apply Fin.ext
  have ha := a.isLt
  have hb := b.isLt
  simp only [byte]
  omega

theorem byte_of_sextets_second (a b c : Byte) :
    byte ((a.val % 4 * 16 + b.val / 16) % 16 * 16 + (b.val % 16 * 4 + c.val / 64) / 4) = b := by
  apply Fin.ext
  have ha := a.isLt
  have hb := b.isLt
  have hc := c.isLt
  simp only [byte]
  omega

theorem byte_of_sextets_third (b c : Byte) :
    byte ((b.val % 16 * 4 + c.val / 64) % 4 * 64 + c.val % 64) = c := by
  apply Fin.ext
  have hb := b.isLt
  have hc := c.isLt
  simp only [byte]
  omega

/-- Base64 decoding undoes base64 encoding, for every byte sequence. -/
theorem b64decode_b64encode (d : Bytes) : b64decode (b64encode d) = some d := by
  induction d using b64encode.induct with
  | case1 => rfl
  | case2 a =>
    have ha := a.isLt
    have h0 : a.val / 4 < 64 := by omega
    have h1 : a.val % 4 * 16 < 64 := by omega
    simp [b64encode, b64decode, b64decodeLast, b64val_b64char _ h0, b64val_b64char _ h1]
    apply Fin.ext
    simp only [byte]
    omega
  | case3 a b =>
    have ha := a.isLt
    have hb := b.isLt
    have h0 : a.val / 4 < 64 := by omega
    have h1 : a.val % 4 * 16 + b.val / 16 < 64 := by omega
    have h2 : b.val % 16 * 4 < 64 := by omega
    have e1 := byte_of_sextets_first a b
    simp [b64encode, b64decode, b64decodeLast, b64val_b64char _ h0, b64val_b64char _ h1,
      b64val_b64char _ h2, b64char_ne_pad _ h2, e1]
    apply Fin.ext
    simp only [byte]
    omega
  | case4 a b c rest ih =>
    have ha := a.isLt
    have hb := b.isLt
    have hc := c.isLt
    have h0 : a.val / 4 < 64 := by omega
    have h1 : a.val % 4 * 16 + b.val / 16 < 64 := by omega
    have h2 : b.val % 16 * 4 + c.val / 64 < 64 := by omega
    have h3 : c.val % 64 < 64 := by omega
    have e1 := byte_of_sextets_first a b
    have e2 := byte_of_sextets_second a b c
    have e3 := byte_of_sextets_third b c
    by_cases hr : rest = []
    · subst hr
      simp [b64encode, b64decode, b64decodeLast, b64val_b64char _ h0, b64val_b64char _ h1,
        b64val_b64char _ h2, b64val_b64char _ h3, b64char_ne_pad _ h2, b64char_ne_pad _ h3,
        e1, e2, e3]
    · have hne : b64encode rest ≠ [] := fun h => hr ((b64encode_eq_nil rest).1 h)
      simp [b64encode, b64decode, hne, ih, b64val_b64char _ h0, b64val_b64char _ h1,
        b64val_b64char _ h2, b64val_b64char _ h3, e1, e2, e3]

theorem byte_of_hex (c : Byte) : byte (c.val / 16 * 16 + c.val % 16) = c := by
  apply Fin.ext
  have hc := c.isLt
  simp only [byte]
  omega

/-- Percent-unescaping undoes the ASCII serialization, for every byte
sequence. -/
theorem unescape_escape (d : Bytes) : unescape (escape d) = some d := by
  induction d with
  | nil => rfl
  | cons c cs ih =>
    have hc := c.isLt
    by_cases hu : isUnreserved c = true
    · have hne : c ≠ 37 := by
        intro h
        subst h
        exact absurd hu (by decide)
      simp only [escape, hu, if_true]
      unfold unescape
      simp [hne, ih]
    · have h0 : c.val / 16 < 16 := by omega
      have h1 : c.val % 16 < 16 := by omega
      simp [escape, hu, unescape, ih, hexVal_hexDigit _ h0, hexVal_hexDigit _ h1,
        byte_of_hex]

theorem dropLeading_append (p : GoString) (t : Bytes) : dropLeading p (p ++ t) = some t := by
  induction p with
  | nil => cases t <;> rfl
  | cons c cs ih => simp [dropLeading, ih]

theorem splitHeader_append (h p : Bytes) (hh : (44 : Byte) ∉ h) :
    splitHeader (h ++ 44 :: p) = some (h, p) := by
  induction h with
  | nil => simp [splitHeader]
  | cons c cs ih =>
    have hc : c ≠ 44 := fun e => hh (by simp [e])
    have hcs : (44 : Byte) ∉ cs := fun e => hh (List.mem_cons_of_mem _ e)
    simp [splitHeader, hc, ih hcs]

theorem splitTokens_of_not_mem (m : Bytes) (hm : (59 : Byte) ∉ m) :
    splitTokens m = (m, []) := by
  induction m with
  | nil => rfl
  | cons c cs ih =>
    have hc : c ≠ 59 := fun e => hm (by simp [e])
    have hcs : (59 : Byte) ∉ cs := fun e => hm (List.mem_cons_of_mem _ e)
    simp [splitTokens, hc, ih hcs]

theorem splitTokens_append (m t : Bytes) (hm : (59 : Byte) ∉ m) :
    splitTokens (m ++ 59 :: t) = (m, (splitTokens t).1 :: (splitTokens t).2) := by
  induction m with
  | nil => simp [splitTokens]
  | cons c cs ih =>
    have hc : c ≠ 59 := fun e => hm (by simp [e])
    have hcs : (59 : Byte) ∉ cs := fun e => hm (List.mem_cons_of_mem _ e)
    simp [splitTokens, hc, ih hcs]

theorem mediatypeOrDefault_not_mem (m : GoString) (c : Byte) (hc : c = 44 ∨ c = 59)
    (hm : c ∉ m) : c ∉ mediatypeOrDefault m := by
  unfold mediatypeOrDefault
  split
  · rcases hc with hc | hc <;> subst hc <;> decide
  · exact hm

/-- The codec's parse of the codec's text, for a mediatype without `,` and
`;` and no parameters: the parse succeeds and gives back the data and the
variant, and the mediatype as it was written. -/
theorem Decode_Encode (d : Bytes) (m : GoString) (v : Encoding)
    (hc : (44 : Byte) ∉ m) (hs : (59 : Byte) ∉ m) :
    Decode (Encode ⟨m, [], v, d⟩) = .ok ⟨mediatypeOrDefault m, [], v, d⟩ := by
  have hc1 := mediatypeOrDefault_not_mem m 44 (Or.inl rfl) hc
  have hs1 := mediatypeOrDefault_not_mem m 59 (Or.inr rfl) hs
  cases v
  · have htext : Encode ⟨m, [], .EncodingBase64, d⟩ =
        str "data:" ++ ((mediatypeOrDefault m ++ 59 :: str "base64") ++ 44 :: b64encode d) := by
      have h7 : str ";base64" = 59 :: str "base64" := by decide
      simp [Encode, encodeParams, h7]
    have hh : (44 : Byte) ∉ mediatypeOrDefault m ++ 59 :: str "base64" := by
      intro hmem
      rcases List.mem_append.1 hmem with h1 | h1
      · exact hc1 h1
      · revert h1
        decide
    have ht : splitTokens (str "base64") = (str "base64", []) := by decide
    have hp : parseTokens [str "base64"] = .ok ([], .EncodingBase64) := by decide
    rw [htext]
    simp only [Decode, dropLeading_append, splitHeader_append _ _ hh,
      splitTokens_append _ _ hs1, ht, hp, decodePayload, b64decode_b64encode]
  · have htext : Encode ⟨m, [], .EncodingASCII, d⟩ =
        str "data:" ++ (mediatypeOrDefault m ++ 44 :: escape d) := by
      simp [Encode, encodeParams]
    have hp : parseTokens [] = .ok ([], .EncodingASCII) := rfl
    rw [htext]
    simp only [Decode, dropLeading_append, splitHeader_append _ _ hc1,
      splitTokens_of_not_mem _ hs1, hp, decodePayload, unescape_escape]

/-- C1 (as stated, refuted): the round trip does not hold for every
mediatype.  The mediatype `a,b` is cut at its `,` by the parse, so the text
encoded for the empty data decodes to the mediatype `a` and to the data
`b;base64,`, and the program's `decode` writes these bytes; and the empty
mediatype comes back as `text/plain`. -/
theorem roundtrip_counterexample :
    (¬ ∀ (d : Bytes) (m : GoString) (v : Encoding),
        ∃ du, Decode (Encode ⟨m, [], v, d⟩) = .ok du ∧ du.data = d ∧ du.mediatype = m) ∧
    Decode (Encode ⟨str "a,b", [], .EncodingBase64, []⟩) =
      .ok ⟨str "a", [], .EncodingASCII, str "b;base64,"⟩ ∧
    encode specCodec (some ⟨.stdin, .ret ([], none)⟩) okWriter .EncodingBase64 (str "a,b") =
      ([.serialize ⟨str "a,b", [], .EncodingBase64, []⟩, .write (str "data:a,b;base64,")],
        .ret none) ∧
    decode specCodec (some ⟨.stdin, .ret (str "data:a,b;base64,", none)⟩) okWriter =
      ([.write (str "b;base64,")], .ret none) ∧
    Decode (Encode ⟨[], [], .EncodingBase64, []⟩) =
      .ok ⟨str "text/plain", [], .EncodingBase64, []⟩ := by
  refine ⟨?_, by decide, by decide, by decide, by decide⟩
  intro h
  obtain ⟨du, h1, h2, _⟩ := h [] (str "a,b") .EncodingBase64
  have h3 : Decode (Encode ⟨str "a,b", [], .EncodingBase64, []⟩) =
      .ok ⟨str "a", [], .EncodingASCII, str "b;base64,"⟩ := by decide
  rw [h3] at h1
  injection h1 with h1
  subst h1
  revert h2
  decide

/-- C1 (amended): round trip.  For every byte sequence, each of the two
variants and every mediatype that contains neither `,` nor `;`, decoding the
text produced by encoding yields a `DataURI` with the same data, the same
variant, no parameters, and the same mediatype, `text/plain` standing for the
empty one.  Consequently the program's `encode` on input `d` makes one write,
of that text, and the program's `decode` run on that text writes exactly
`d`. -/
theorem roundtrip_without_delimiters (d : Bytes) (m : GoString) (v : Encoding) (src : Source)
    (hc : (44 : Byte) ∉ m) (hs : (59 : Byte) ∉ m) :
    Decode (Encode ⟨m, [], v, d⟩) = .ok ⟨mediatypeOrDefault m, [], v, d⟩ ∧
    (m ≠ [] → mediatypeOrDefault m = m) ∧
    encode specCodec (some ⟨src, .ret (d, none)⟩) okWriter v m =
      ([.serialize ⟨m, [], v, d⟩, .write (Encode ⟨m, [], v, d⟩)], .ret none) ∧
    decode specCodec (some ⟨src, .ret (Encode ⟨m, [], v, d⟩, none)⟩) okWriter =
      ([.write d], .ret none) := by
  refine ⟨Decode_Encode d m v hc hs, ?_, ?_, ?_⟩
  · intro hne
    simp [mediatypeOrDefault, hne]
  · simp [encode, ioReadAll, specCodec, okWriter]
  · simp [decode, ioReadAll, specCodec, okWriter, Decode_Encode d m v hc hs]

theorem roundtrip_without_delimiters_witness :
    Decode (Encode ⟨str "image/png", [], .EncodingASCII, str "a b"⟩) =
      .ok ⟨str "image/png", [], .EncodingASCII, str "a b"⟩ ∧
    decode specCodec
        (some ⟨.stdin, .ret (Encode ⟨str "image/png", [], .EncodingBase64, str "a b"⟩, none)⟩)
        okWriter =
      ([.write (str "a b")], .ret none) :=
  ⟨(roundtrip_without_delimiters (str "a b") (str "image/png") .EncodingASCII .stdin
      (by decide) (by decide)).1,
    (roundtrip_without_delimiters (str "a b") (str "image/png") .EncodingBase64 .stdin
      (by decide) (by decide)).2.2.2⟩

end DataURL
